import Mathlib

/-!
Verification of the response-to-filesystem materialization pipeline of the
m365-agente VS Code extension (src/m365-agente/extension.js and
src/m365-agente/webview/script.js).

The embedding models, faithfully to the JavaScript source:
  * the code-block extraction regex of processAndWriteFiles,
      pattern (in JS): three backticks, [\w]*, \s*, newline, "// FILE: ",
      a lazy dot-group for the path, newline, a lazy any-char group for the
      body, then newline and three backticks; global scan with lastIndex;
  * JavaScript String.prototype.trim on the captured groups;
  * vscode.Uri.joinPath path resolution (posix-style segment normalization);
  * the per-intent write loop with its try/catch (one outcome per intent);
  * handleCopilotRequest's try/catch/finally event protocol to the webview;
  * the webview's sendMessage / event handlers (script.js).
-/

namespace M365Agent

/-- The backtick character, written by code point. -/
def bq : Char := '\x60'

/-- JavaScript regex word character class: [A-Za-z0-9_]. -/
def isWordChar (c : Char) : Bool :=
  let n := c.toNat
  (0x41 ≤ n && n ≤ 0x5a) || (0x61 ≤ n && n ≤ 0x7a) || (0x30 ≤ n && n ≤ 0x39) || n == 0x5f

/-- JavaScript whitespace class (regex backslash-s, also the set String.trim
removes): tab, LF, VT, FF, CR, space, NBSP, and the Unicode space separators
plus LS, PS and BOM. -/
def isJsSpace (c : Char) : Bool :=
  let n := c.toNat
  n == 0x20 || n == 0x09 || n == 0x0a || n == 0x0b || n == 0x0c || n == 0x0d ||
  n == 0xa0 || n == 0x1680 || (0x2000 ≤ n && n ≤ 0x200a) ||
  n == 0x2028 || n == 0x2029 || n == 0x202f || n == 0x205f || n == 0x3000 || n == 0xfeff

/-- Characters the JS regex dot matches (no line terminators). -/
def isDotChar (c : Char) : Bool :=
  let n := c.toNat
  !(n == 0x0a || n == 0x0d || n == 0x2028 || n == 0x2029)

/-- JavaScript String.prototype.trim on a character list. -/
def jsTrimList (l : List Char) : List Char :=
  ((l.dropWhile isJsSpace).reverse.dropWhile isJsSpace).reverse

/-- JavaScript String.prototype.trim. -/
def jsTrimString (s : String) : String := String.mk (jsTrimList s.data)

/-- The closing-fence pattern the lazy body group stops before:
a newline followed by three backticks. -/
def fencePat : List Char := ['\n', bq, bq, bq]

/-- Whether the closing-fence pattern occurs (entirely) inside `l`. -/
def hasFence : List Char → Bool
  | [] => false
  | x :: xs => (decide (x = '\n' ∧ xs.take 3 = [bq, bq, bq])) || hasFence xs

/-- Split at the first occurrence of the closing-fence pattern: returns the
body before it and the rest after it.  This is the lazy group of the regex:
the body extends to the first newline-plus-three-backticks. -/
def splitAtFence : List Char → Option (List Char × List Char)
  | [] => none
  | x :: xs =>
    if x = '\n' ∧ xs.take 3 = [bq, bq, bq] then some ([], xs.drop 3)
    else
      match splitAtFence xs with
      | some (body, rest) => some (x :: body, rest)
      | none => none

/-- The literal file marker the regex requires at the start of the line
after the opening fence: two slashes, a space, FILE, a colon, a space. -/
def markerPat : List Char := ['/', '/', ' ', 'F', 'I', 'L', 'E', ':', ' ']

/-- Matching of the regex part after the opening backticks: the word run
([\w]*, maximal since shrinking it cannot help the engine), then a greedy
whitespace run whose last consumed character must be a newline immediately
followed by the marker (backtracking of the greedy star).  Returns the text
after the marker. -/
def matchHeader (t : List Char) : Option (List Char) :=
  if (((t.dropWhile isWordChar).takeWhile isJsSpace).getLast?) = some '\n' then
    if markerPat.isPrefixOf ((t.dropWhile isWordChar).dropWhile isJsSpace) then
      some (((t.dropWhile isWordChar).dropWhile isJsSpace).drop markerPat.length)
    else none
  else none

/-- Matching of the path group and body group: the lazy dot-group for the
path runs to the line's end (dot cannot cross a line terminator, so the
following literal newline must be the next character), then the lazy
any-char body group stops at the first closing fence. -/
def matchAfterMarker (t3 : List Char) : Option (List Char × List Char × List Char) :=
  match t3.dropWhile isDotChar with
  | c :: t4 =>
    if c = '\n' then (splitAtFence t4).map (fun pr => (t3.takeWhile isDotChar, pr.1, pr.2))
    else none
  | [] => none

/-- One attempt of the code-block regex at the head of `s`: three backticks,
the header, the path line, the body, the closing fence.  Returns the raw
path group, raw body group, and the remaining text after the match
(where the global scan's lastIndex continues). -/
def matchBlockAt (s : List Char) : Option (List Char × List Char × List Char) :=
  match s with
  | a :: b :: d :: t =>
    if a = bq ∧ b = bq ∧ d = bq then
      match matchHeader t with
      | some t3 => matchAfterMarker t3
      | none => none
    else none
  | _ => none

/-- A file-write intent as extracted by processAndWriteFiles:
`filePath = match[1].trim()`, `fileContent = match[2].trim()`. -/
structure FileWriteIntent where
  relativePath : String
  content : String
deriving DecidableEq, Repr

/-- The intent built from the raw regex groups (both sides trimmed, as in
the source). -/
def mkIntent (p c : List Char) : FileWriteIntent :=
  ⟨String.mk (jsTrimList p), String.mk (jsTrimList c)⟩

lemma length_dropWhile_le' (p : Char → Bool) (l : List Char) :
    (l.dropWhile p).length ≤ l.length := by
  induction l with
  | nil => simp
  | cons x xs ih =>
    rw [List.dropWhile_cons]
    split
    · exact Nat.le_trans ih (Nat.le_succ _)
    · exact Nat.le_refl _

lemma splitAtFence_rest_lt : ∀ (l b r : List Char), splitAtFence l = some (b, r) →
    r.length < l.length := by
  intro l
  induction l with
  | nil => intro b r h; simp [splitAtFence] at h
  | cons x xs ih =>
    intro b r h
    unfold splitAtFence at h
    split at h
    · simp only [Option.some.injEq, Prod.mk.injEq] at h
      obtain ⟨-, hr⟩ := h
      subst hr
      simp only [List.length_drop, List.length_cons]
      omega
    · cases hm : splitAtFence xs with
      | none => rw [hm] at h; cases h
      | some pr =>
        obtain ⟨body, rest⟩ := pr
        rw [hm] at h
        simp only [Option.some.injEq, Prod.mk.injEq] at h
        obtain ⟨-, hr⟩ := h
        subst hr
        have := ih body rest hm
        simp only [List.length_cons]
        omega

lemma matchHeader_le {t t3 : List Char} (h : matchHeader t = some t3) :
    t3.length ≤ t.length := by
  unfold matchHeader at h
  split at h
  · split at h
    · simp only [Option.some.injEq] at h
      subst h
      have h1 := length_dropWhile_le' isWordChar t
      have h2 := length_dropWhile_le' isJsSpace (t.dropWhile isWordChar)
      have h3 : (((t.dropWhile isWordChar).dropWhile isJsSpace).drop markerPat.length).length
          ≤ ((t.dropWhile isWordChar).dropWhile isJsSpace).length := by
        simp only [List.length_drop]; omega
      omega
    · cases h
  · cases h

lemma matchAfterMarker_rest_lt {t3 p b r : List Char}
    (h : matchAfterMarker t3 = some (p, b, r)) : r.length < t3.length := by
  unfold matchAfterMarker at h
  split at h
  · rename_i c t4 heq
    split at h
    · cases hs : splitAtFence t4 with
      | none => rw [hs] at h; cases h
      | some pr =>
        obtain ⟨body, rest⟩ := pr
        rw [hs] at h
        simp only [Option.map_some', Option.some.injEq, Prod.mk.injEq] at h
        obtain ⟨-, -, hr⟩ := h
        subst hr
        have h1 := splitAtFence_rest_lt t4 body rest hs
        have h2 : (c :: t4).length ≤ t3.length := by
          rw [← heq]; exact length_dropWhile_le' isDotChar t3
        simp only [List.length_cons] at h2
        omega
    · cases h
  · cases h

lemma matchBlockAt_rest_lt {s p b r : List Char}
    (h : matchBlockAt s = some (p, b, r)) : r.length < s.length := by
  match s with
  | [] => simp [matchBlockAt] at h
  | [a] => simp [matchBlockAt] at h
  | [a, b'] => simp [matchBlockAt] at h
  | a :: b' :: d :: t =>
    unfold matchBlockAt at h
    dsimp only at h
    by_cases hcond : (a = bq ∧ b' = bq ∧ d = bq)
    · rw [if_pos hcond] at h
      cases hh : matchHeader t with
      | none => rw [hh] at h; simp at h
      | some t3 =>
        rw [hh] at h
        dsimp only at h
        have h1 := matchAfterMarker_rest_lt h
        have h2 := matchHeader_le hh
        simp only [List.length_cons]
        omega
    · rw [if_neg hcond] at h; cases h

/-- The global-flag scan of processAndWriteFiles: `regex.exec` is retried
from each position after the previous match (lastIndex semantics yields the
leftmost match at or after it).  Fuel-indexed so it is structural; the fuel
`l.length` always suffices. -/
def scanAux : Nat → List Char → List FileWriteIntent
  | 0, _ => []
  | _ + 1, [] => []
  | n + 1, c :: cs =>
    match matchBlockAt (c :: cs) with
    | some (p, b, rest) => mkIntent p b :: scanAux n rest
    | none => scanAux n cs

lemma scanAux_nil : ∀ n, scanAux n [] = [] := by
  intro n; cases n <;> rfl

lemma scanAux_eq : ∀ (m : Nat) (l : List Char) (n : Nat),
    l.length ≤ m → l.length ≤ n → scanAux m l = scanAux n l := by
  intro m
  induction m with
  | zero =>
    intro l n hm _
    have hl : l = [] := List.length_eq_zero.mp (Nat.le_zero.mp hm)
    subst hl
    rw [scanAux_nil, scanAux_nil]
  | succ m ih =>
    intro l n hm hn
    cases l with
    | nil => rw [scanAux_nil, scanAux_nil]
    | cons c cs =>
      cases n with
      | zero => simp at hn
      | succ n' =>
        unfold scanAux
        cases hmb : matchBlockAt (c :: cs) with
        | some pr =>
          obtain ⟨p, b, rest⟩ := pr
          have hlt := matchBlockAt_rest_lt hmb
          simp only [List.length_cons] at hm hn hlt
          exact congrArg (List.cons (mkIntent p b)) (ih rest n' (by omega) (by omega))
        | none =>
          simp only [List.length_cons] at hm hn
          exact ih cs n' (by omega) (by omega)

/-- All intents the regex scan extracts from a response text, in document
order (the model of the extraction loop in processAndWriteFiles). -/
def scanBlocks (l : List Char) : List FileWriteIntent := scanAux l.length l

lemma scanBlocks_cons_some {c : Char} {cs p b rest : List Char}
    (h : matchBlockAt (c :: cs) = some (p, b, rest)) :
    scanBlocks (c :: cs) = mkIntent p b :: scanBlocks rest := by
  have hlt := matchBlockAt_rest_lt h
  simp only [List.length_cons] at hlt
  unfold scanBlocks
  simp only [List.length_cons]
  conv_lhs => rw [scanAux]
  rw [h]
  dsimp only
  exact congrArg (List.cons (mkIntent p b))
    (scanAux_eq cs.length rest rest.length (by omega) (Nat.le_refl _))

lemma scanBlocks_cons_none {c : Char} {cs : List Char}
    (h : matchBlockAt (c :: cs) = none) :
    scanBlocks (c :: cs) = scanBlocks cs := by
  unfold scanBlocks
  simp only [List.length_cons]
  conv_lhs => rw [scanAux]
  rw [h]

lemma matchBlockAt_head_ne {c : Char} {X : List Char} (h : ¬ c = bq) :
    matchBlockAt (c :: X) = none := by
  match X with
  | [] => rfl
  | [a] => rfl
  | a :: b :: t =>
    unfold matchBlockAt
    dsimp only
    rw [if_neg]
    intro hcon
    exact h hcon.1

lemma takeWhile_append_stop {pr : Char → Bool} {p : List Char} (x : Char) (Y : List Char)
    (hp : ∀ a ∈ p, pr a = true) (hx : pr x = false) :
    (p ++ x :: Y).takeWhile pr = p := by
  rw [List.takeWhile_append_of_pos hp, List.takeWhile_cons, if_neg (by rw [hx]; exact Bool.false_ne_true)]
  exact List.append_nil p

lemma dropWhile_append_stop {pr : Char → Bool} {p : List Char} (x : Char) (Y : List Char)
    (hp : ∀ a ∈ p, pr a = true) (hx : pr x = false) :
    (p ++ x :: Y).dropWhile pr = x :: Y := by
  rw [List.dropWhile_append_of_pos hp, List.dropWhile_cons, if_neg (by rw [hx]; exact Bool.false_ne_true)]

lemma isPrefixOf_append_self : ∀ (l t : List Char), l.isPrefixOf (l ++ t) = true
  | [], _ => by simp
  | x :: xs, t => by
    show (x == x && xs.isPrefixOf (xs ++ t)) = true
    rw [isPrefixOf_append_self xs t, beq_self_eq_true]
    rfl

lemma fence_no_overlap (c : List Char) : ∀ (rest : List Char), hasFence c = false →
    splitAtFence (c ++ fencePat ++ rest) = some (c, rest) := by
  induction c with
  | nil =>
    intro rest _
    show splitAtFence ('\n' :: bq :: bq :: bq :: rest) = some ([], rest)
    unfold splitAtFence
    rw [if_pos ⟨rfl, rfl⟩]
    rfl
  | cons x xs ih =>
    intro rest hc
    unfold hasFence at hc
    rw [Bool.or_eq_false_iff] at hc
    obtain ⟨hx, hxs⟩ := hc
    have hc1 : ¬ (x = '\n' ∧ xs.take 3 = [bq, bq, bq]) := of_decide_eq_false hx
    have hcond : ¬ (x = '\n' ∧ (xs ++ (fencePat ++ rest)).take 3 = [bq, bq, bq]) := by
      cases xs with
      | nil =>
        intro hcon
        have h2 : (['\n', bq, bq] : List Char) = [bq, bq, bq] := hcon.2
        exact absurd h2 (by decide)
      | cons a xs1 =>
        cases xs1 with
        | nil =>
          intro hcon
          have h2 : ([a, '\n', bq] : List Char) = [bq, bq, bq] := hcon.2
          simp only [List.cons.injEq] at h2
          exact absurd h2.2.1 (by decide)
        | cons b xs2 =>
          cases xs2 with
          | nil =>
            intro hcon
            have h2 : ([a, b, '\n'] : List Char) = [bq, bq, bq] := hcon.2
            simp only [List.cons.injEq] at h2
            exact absurd h2.2.2.1 (by decide)
          | cons d t =>
            intro hcon
            have h2 : ([a, b, d] : List Char) = [bq, bq, bq] := hcon.2
            exact hc1 ⟨hcon.1, h2⟩
    show splitAtFence (x :: (xs ++ fencePat ++ rest)) = some (x :: xs, rest)
    unfold splitAtFence
    rw [if_neg (by rw [List.append_assoc]; exact hcond), ih rest hxs]

/-- One extracted block as processAndWriteFiles' regex would have to see it:
opening fence, newline, the marker, the path, newline, the body, closing
fence. -/
def mkBlockList (p c : List Char) : List Char :=
  bq :: bq :: bq :: '\n' :: (markerPat ++ p ++ '\n' :: (c ++ fencePat))

lemma matchBlockAt_mkBlock (p c rest : List Char)
    (hp : ∀ a ∈ p, isDotChar a = true) (hc : hasFence c = false) :
    matchBlockAt (mkBlockList p c ++ rest) = some (p, c, rest) := by
  have hshape : mkBlockList p c ++ rest
      = bq :: bq :: bq :: '\n' :: (markerPat ++ (p ++ '\n' :: (c ++ fencePat ++ rest))) := by
    simp [mkBlockList, List.append_assoc]
  have hmark : ∀ Y : List Char, markerPat ++ Y
      = '/' :: '/' :: ' ' :: 'F' :: 'I' :: 'L' :: 'E' :: ':' :: ' ' :: Y := fun _ => rfl
  set Y := p ++ '\n' :: (c ++ fencePat ++ rest) with hY
  have hheader : matchHeader ('\n' :: (markerPat ++ Y)) = some Y := by
    unfold matchHeader
    have hd1 : ('\n' :: (markerPat ++ Y)).dropWhile isWordChar = '\n' :: (markerPat ++ Y) := by
      rw [List.dropWhile_cons, if_neg (by decide)]
    have ht1 : ('\n' :: (markerPat ++ Y)).takeWhile isJsSpace = ['\n'] := by
      rw [List.takeWhile_cons, if_pos (by decide), hmark, List.takeWhile_cons,
        if_neg (by decide)]
    have hd2 : ('\n' :: (markerPat ++ Y)).dropWhile isJsSpace = markerPat ++ Y := by
      rw [List.dropWhile_cons, if_pos (by decide), hmark, List.dropWhile_cons,
        if_neg (by decide)]
    rw [hd1, ht1, hd2]
    rw [if_pos (show (['\n'] : List Char).getLast? = some '\n' from rfl),
      if_pos (isPrefixOf_append_self markerPat Y), List.drop_left]
  have hafter : matchAfterMarker Y = some (p, c, rest) := by
    unfold matchAfterMarker
    have hdw : Y.dropWhile isDotChar = '\n' :: (c ++ fencePat ++ rest) := by
      rw [hY]
      exact dropWhile_append_stop '\n' _ hp (by decide)
    have htw : Y.takeWhile isDotChar = p := by
      rw [hY]
      exact takeWhile_append_stop '\n' _ hp (by decide)
    rw [hdw]
    dsimp only
    rw [if_pos rfl, htw, fence_no_overlap c rest hc]
    rfl
  rw [hshape]
  unfold matchBlockAt
  dsimp only
  rw [if_pos ⟨rfl, rfl, rfl⟩, hheader]
  dsimp only
  exact hafter

lemma scanBlocks_mkBlock (p c rest : List Char)
    (hp : ∀ a ∈ p, isDotChar a = true) (hc : hasFence c = false) :
    scanBlocks (mkBlockList p c ++ rest) = mkIntent p c :: scanBlocks rest := by
  have hm := matchBlockAt_mkBlock p c rest hp hc
  exact scanBlocks_cons_some hm

/-- A block as the CODER persona's documented format produces it (string
level): fence, newline, the marker comment with the path, newline, the
content, newline, closing fence. -/
def mkFileBlock (p c : String) : String :=
  "```\n// FILE: " ++ p ++ "\n" ++ c ++ "\n```"

/-- A response text carrying one block per intent, in order. -/
def buildResponse : List FileWriteIntent → String
  | [] => ""
  | i :: rest => mkFileBlock i.relativePath i.content ++ buildResponse rest

lemma data_mkFileBlock (p c : String) :
    (mkFileBlock p c).data = mkBlockList p.data c.data := by
  show ("```\n// FILE: " ++ p ++ "\n" ++ c ++ "\n```").data = _
  simp only [String.data_append]
  show (bq :: bq :: bq :: '\n' :: markerPat) ++ p.data ++ ['\n'] ++ c.data ++ fencePat = _
  simp [mkBlockList, List.append_assoc]

/-- A path is well formed when every character can be matched by the regex
dot (no line terminators) and JS trim leaves it unchanged. -/
def goodPath (p : String) : Prop :=
  (∀ a ∈ p.data, isDotChar a = true) ∧ jsTrimList p.data = p.data

/-- A content is well formed when it contains no closing-fence sequence and
JS trim leaves it unchanged. -/
def goodContent (c : String) : Prop :=
  hasFence c.data = false ∧ jsTrimList c.data = c.data

instance (p : String) : Decidable (goodPath p) := by
  unfold goodPath; infer_instance

instance (c : String) : Decidable (goodContent c) := by
  unfold goodContent; infer_instance

lemma mkIntent_eq_self {p c : String} (hp : jsTrimList p.data = p.data)
    (hc : jsTrimList c.data = c.data) : mkIntent p.data c.data = ⟨p, c⟩ := by
  unfold mkIntent
  rw [hp, hc]

/- ----------------------------------------------------------------
   Workspace writer (the write loop of processAndWriteFiles).
   ---------------------------------------------------------------- -/

/-- Normalization of path segments as vscode.Uri.joinPath performs it
(posix join semantics): empty and dot segments are dropped, a dot-dot
segment removes the last segment (staying at the filesystem root when
there is nothing left to remove). -/
def normSegs : List String → List String → List String
  | acc, [] => acc
  | acc, s :: rest =>
    if s = "" ∨ s = "." then normSegs acc rest
    else if s = ".." then normSegs acc.dropLast rest
    else normSegs (acc ++ [s]) rest

/-- The absolute path (as segments) a relative path resolves to under the
workspace root, as vscode.Uri.joinPath(rootPath, filePath) computes it. -/
def resolveSegs (root : List String) (rel : String) : List String :=
  normSegs root ((rel.data.splitOn '/').map (fun l => String.mk l))

/-- The filesystem as a write log: most recent write first.  Reading a path
returns the most recent content written to it. -/
abbrev FS := List (List String × String)

def fsWrite (fs : FS) (p : List String) (v : String) : FS := (p, v) :: fs

def fsRead (fs : FS) (p : List String) : Option String :=
  (fs.find? (fun e => e.1 == p)).map (fun e => e.2)

/-- One write outcome, as the loop reports it (an information message on
success, an error message on failure). -/
structure FileWriteOutcome where
  path : String
  ok : Bool
deriving DecidableEq, Repr

/-- The write loop of processAndWriteFiles over the extracted intents:
each iteration resolves the path, attempts the write inside its own
try/catch (`wenv k` tells whether the k-th attempt throws a filesystem
error), counts successes (`filesWritten`), and continues with the next
intent regardless.  Returns the filesystem, the success count and the
outcome list in document order. -/
def applyIntents (wenv : Nat → Bool) (root : List String) (fs : FS) (k : Nat) :
    List FileWriteIntent → FS × Nat × List FileWriteOutcome
  | [] => (fs, 0, [])
  | i :: rest =>
    if wenv k then
      ((applyIntents wenv root fs (k + 1) rest).1,
       (applyIntents wenv root fs (k + 1) rest).2.1,
       ⟨i.relativePath, false⟩ :: (applyIntents wenv root fs (k + 1) rest).2.2)
    else
      ((applyIntents wenv root (fsWrite fs (resolveSegs root i.relativePath) i.content) (k + 1) rest).1,
       (applyIntents wenv root (fsWrite fs (resolveSegs root i.relativePath) i.content) (k + 1) rest).2.1 + 1,
       ⟨i.relativePath, true⟩ ::
         (applyIntents wenv root (fsWrite fs (resolveSegs root i.relativePath) i.content) (k + 1) rest).2.2)

/- ----------------------------------------------------------------
   Session controller (handleCopilotRequest) event protocol.
   ---------------------------------------------------------------- -/

/-- The messages handleCopilotRequest posts to the webview. -/
inductive Event where
  | streamResponse (text : String)
  | showError (text : String)
  | endStream
  | addSystemMessage (text : String)
deriving DecidableEq, Repr

/-- Outcome of getAccessToken: a token, or the thrown
Error('Authentication failed'). -/
inductive AuthResult where
  | success (token : String)
  | failure
deriving DecidableEq, Repr

/-- Outcome of the fetch to the remote API: a 2xx response whose JSON body
carries an optional `value` string, a non-ok response with a status and an
optional server error message, or a thrown network error. -/
inductive FetchOutcome where
  | httpOk (value : Option String)
  | httpErr (status : Nat) (errMsg : Option String)
  | netFail (msg : String)
deriving DecidableEq, Repr

/-- "Nenhuma resposta recebida." -- the placeholder used when result.value
is falsy. -/
def placeholderText : String := "Nenhuma resposta recebida."

def errPrefix : String := "Erro ao se comunicar com o M365 Copilot: "

def authFailText : String := "Authentication failed"

def unknownErrText : String := "Erro desconhecido"

/-- The message of the error thrown on a non-ok response. -/
def apiErrText (status : Nat) (m : Option String) : String :=
  "API Error " ++ toString status ++ ": " ++
    (match m with
     | some s => s
     | none => unknownErrText)

/-- The aggregate notice posted when at least one file was written. -/
def sysMsgText (n : Nat) : String :=
  toString n ++ " arquivo(s) foram criados/modificados no seu projeto."

/-- handleCopilotRequest, as a function of the environment: the
authentication outcome, the fetch outcome, the chosen agent, the per-write
failure oracle, the workspace root (none when no folder is open) and the
filesystem.  Returns the posted webview events in order and the final
filesystem.  The try/catch/finally structure of the source is mirrored:
any thrown error is caught and posted as showError, and endStream is posted
in the finally block on every path. -/
def handleCopilotRequest (auth : AuthResult) (fetch : FetchOutcome) (agent : String)
    (wenv : Nat → Bool) (root : Option (List String)) (fs : FS) : List Event × FS :=
  match auth with
  | .failure => ([Event.showError (errPrefix ++ authFailText), Event.endStream], fs)
  | .success _tok =>
    match fetch with
    | .netFail m => ([Event.showError (errPrefix ++ m), Event.endStream], fs)
    | .httpErr st m => ([Event.showError (errPrefix ++ apiErrText st m), Event.endStream], fs)
    | .httpOk v =>
      match v with
      | none => handleOkBody placeholderText agent wenv root fs
      | some s => if s = "" then handleOkBody placeholderText agent wenv root fs
                  else handleOkBody s agent wenv root fs
where
  /-- The success path after `copilotResponse` is computed: post the
  response, run the materialization pass for the coder persona, post the
  terminal event. -/
  handleOkBody (resp : String) (agent : String) (wenv : Nat → Bool)
      (root : Option (List String)) (fs : FS) : List Event × FS :=
    if agent = "coder" then
      match root with
      | none => ([Event.streamResponse resp, Event.endStream], fs)
      | some r =>
        ([Event.streamResponse resp]
          ++ (if 0 < (applyIntents wenv r fs 0 (scanBlocks resp.data)).2.1 then
                [Event.addSystemMessage
                  (sysMsgText (applyIntents wenv r fs 0 (scanBlocks resp.data)).2.1)]
              else [])
          ++ [Event.endStream],
         (applyIntents wenv r fs 0 (scanBlocks resp.data)).1)
    else ([Event.streamResponse resp, Event.endStream], fs)

/-- Whether an event is the terminal request-finished event (endStream). -/
def isFinished : Event → Bool
  | .endStream => true
  | _ => false

/-- How many terminal events a posted event list carries. -/
def countFinished (evs : List Event) : Nat := (evs.filter isFinished).length

/- ----------------------------------------------------------------
   Webview UI (script.js): sendMessage and the message listener.
   ---------------------------------------------------------------- -/

/-- The webview state: the textarea value, the send button's disabled
flag, and how many submitted requests have not yet received their terminal
endStream (each submission posts sendMessageToCopilot, which starts one
remote call in the extension host). -/
structure UIState where
  input : String
  sendDisabled : Bool
  inFlight : Nat
deriving DecidableEq, Repr

/-- The user and host events the webview reacts to.  A click on a disabled
button fires nothing; the keydown listener on the textarea fires on Enter
regardless of the button state (script.js lines 43-48). -/
inductive UIEvent where
  | setInput (s : String)
  | clickSend
  | pressEnter
  | hostEndStream
  | hostShowError
deriving DecidableEq, Repr

/-- sendMessage (script.js lines 17-39): returns unchanged when the
trimmed input is empty; otherwise disables the button, clears the input
and posts sendMessageToCopilot (one more request in flight). -/
def sendMessage (st : UIState) : UIState :=
  if jsTrimString st.input = "" then st
  else { input := "", sendDisabled := true, inFlight := st.inFlight + 1 }

def uiStep (st : UIState) : UIEvent → UIState
  | .setInput s => { st with input := s }
  | .clickSend => if st.sendDisabled then st else sendMessage st
  | .pressEnter => sendMessage st
  | .hostEndStream => { st with sendDisabled := false, inFlight := st.inFlight - 1 }
  | .hostShowError => { st with sendDisabled := false }

def uiInit : UIState := ⟨"", false, 0⟩

def uiRun (evs : List UIEvent) : UIState := evs.foldl uiStep uiInit

/-- Whether the fetch outcome is one of the failure modes (non-ok status or
a thrown network error). -/
def FetchOutcome.isFailure : FetchOutcome → Bool
  | .httpOk _ => false
  | _ => true

/-- Modelled from the spec's words for comparison with the code (claim C2
describes content as the fence body "trimmed of leading/trailing blank
lines"): whole blank lines are removed at either end, everything else --
including indentation of the first non-blank line -- is kept. -/
def isBlankLine (l : List Char) : Bool := l.all isJsSpace

def specTrimBlankLines (s : String) : String :=
  String.mk
    (((((s.data.splitOn '\n').dropWhile isBlankLine).reverse.dropWhile
      isBlankLine).reverse.intersperse ['\n']).flatten)

/- ----------------------------------------------------------------
   Claims.
   ---------------------------------------------------------------- -/

/-- A response carrying one fenced FILE block whose path climbs out of the
workspace root with a dot-dot segment. -/
def c1Response : String := "```\n// FILE: ../pwned.txt\nhi\n```"

/-- Claim C1 (code bug): for the response carrying the path
"../pwned.txt", the pipeline extracts the intent and WRITES the file at
home/user/pwned.txt, which is outside the workspace root home/user/ws --
no PathViolation outcome exists and the write is not refused.  The claim
(and the spec's stated invariant) requires the write to be rejected; the
code performs no path validation at all. -/
theorem c1_escape_write_outside_root :
    scanBlocks c1Response.data = [FileWriteIntent.mk "../pwned.txt" "hi"]
    ∧ (handleCopilotRequest (AuthResult.success "tok") (FetchOutcome.httpOk (some c1Response))
        "coder" (fun _ => false) (some ["home", "user", "ws"]) []).2
      = [(["home", "user", "pwned.txt"], "hi")]
    ∧ (["home", "user", "ws"].isPrefixOf ["home", "user", "pwned.txt"]) = false := by
  decide

/-- The C2 counterexample text: a well-formed block whose single content
line is indented by two spaces. -/
def c2Text : String := "```js\n// FILE: a.txt\n  x\n```"

/-- Claim C2 counterexample: the code trims the captured body with
String.trim, so the extracted content is "x"; the claim's reading -- the
body trimmed only of leading/trailing blank lines -- keeps the two-space
indentation, so the intent the claim predicts is not produced. -/
theorem c2_counterexample :
    scanBlocks c2Text.data = [FileWriteIntent.mk "a.txt" "x"]
    ∧ specTrimBlankLines "  x" = "  x"
    ∧ FileWriteIntent.mk "a.txt" (specTrimBlankLines "  x") ∉ scanBlocks c2Text.data := by
  decide

/-- Claim C2 (corrected): for every response built from intents whose
paths contain no line terminator and are whitespace-trimmed, and whose
contents are whitespace-trimmed and contain no closing-fence sequence,
extraction yields exactly one intent per block, in document order, with
path and content matching the block (round-trip).  Contents and paths are
trimmed of leading/trailing whitespace (String.trim), not merely of blank
lines. -/
theorem c2_roundtrip_trimmed (intents : List FileWriteIntent)
    (h : ∀ i ∈ intents, goodPath i.relativePath ∧ goodContent i.content) :
    scanBlocks (buildResponse intents).data = intents := by
  induction intents with
  | nil => rfl
  | cons i rest ih =>
    obtain ⟨⟨hdot, hpt⟩, hfc, hct⟩ := h i (List.mem_cons_self i rest)
    have hrec := ih (fun j hj => h j (List.mem_cons_of_mem i hj))
    show scanBlocks (mkFileBlock i.relativePath i.content ++ buildResponse rest).data
      = i :: rest
    rw [String.data_append, data_mkFileBlock, scanBlocks_mkBlock _ _ _ hdot hfc,
      mkIntent_eq_self hpt hct, hrec]

/-- Witness for C2: a two-intent response round-trips. -/
theorem c2_roundtrip_trimmed_witness :
    scanBlocks (buildResponse [FileWriteIntent.mk "a/b.js" "console.log(1)",
        FileWriteIntent.mk "c.txt" "hello"]).data
      = [FileWriteIntent.mk "a/b.js" "console.log(1)", FileWriteIntent.mk "c.txt" "hello"] :=
  c2_roundtrip_trimmed _ (by decide)

/-- Claim C3 (code bug): submitting via the button disables it, but the
textarea's Enter-key handler calls sendMessage without checking the
disabled flag or any pending-request state, so typing new text and
pressing Enter while a request is pending posts a second
sendMessageToCopilot: two remote calls are then in flight at once. -/
theorem c3_enter_key_second_inflight :
    (uiRun [UIEvent.setInput "first request", UIEvent.clickSend,
            UIEvent.setInput "second while pending", UIEvent.pressEnter]).inFlight = 2 := by
  decide

/-- Claim C4 (confirmed): whatever the authentication outcome, fetch
outcome, agent, write failures and workspace root, handleCopilotRequest
posts exactly one terminal endStream event -- the finally block runs on
every exit path. -/
theorem c4_exactly_one_finished (auth : AuthResult) (fetch : FetchOutcome) (agent : String)
    (wenv : Nat → Bool) (root : Option (List String)) (fs : FS) :
    countFinished (handleCopilotRequest auth fetch agent wenv root fs).1 = 1 := by
  have hbody : ∀ (resp : String),
      countFinished (handleCopilotRequest.handleOkBody resp agent wenv root fs).1 = 1 := by
    intro resp
    unfold handleCopilotRequest.handleOkBody
    by_cases hA : agent = "coder"
    · rw [if_pos hA]
      cases root with
      | none => rfl
      | some r =>
        dsimp only
        by_cases hn : 0 < (applyIntents wenv r fs 0 (scanBlocks resp.data)).2.1
        · rw [if_pos hn]; rfl
        · rw [if_neg hn]; rfl
    · rw [if_neg hA]; rfl
  cases auth with
  | failure => rfl
  | success tok =>
    cases fetch with
    | netFail m => rfl
    | httpErr st m => rfl
    | httpOk v =>
      cases v with
      | none => exact hbody placeholderText
      | some s =>
        show countFinished
          (if s = "" then handleCopilotRequest.handleOkBody placeholderText agent wenv root fs
           else handleCopilotRequest.handleOkBody s agent wenv root fs).1 = 1
        by_cases hs : s = ""
        · rw [if_pos hs]; exact hbody placeholderText
        · rw [if_neg hs]; exact hbody s

/-- Claim C5 (confirmed): on any failing remote call (auth failure, non-ok
HTTP status, or network error) the controller posts exactly an error
notice followed by the terminal event -- no response event -- and the
filesystem is unchanged (no write is attempted). -/
theorem c5_error_no_writes (auth : AuthResult) (fetch : FetchOutcome) (agent : String)
    (wenv : Nat → Bool) (root : Option (List String)) (fs : FS)
    (h : auth = AuthResult.failure ∨ fetch.isFailure = true) :
    ∃ msg, (handleCopilotRequest auth fetch agent wenv root fs).1
        = [Event.showError msg, Event.endStream]
      ∧ (handleCopilotRequest auth fetch agent wenv root fs).2 = fs := by
  cases auth with
  | failure => exact ⟨errPrefix ++ authFailText, rfl, rfl⟩
  | success tok =>
    cases fetch with
    | netFail m => exact ⟨errPrefix ++ m, rfl, rfl⟩
    | httpErr st m => exact ⟨errPrefix ++ apiErrText st m, rfl, rfl⟩
    | httpOk v =>
      rcases h with h | h
      · cases h
      · simp [FetchOutcome.isFailure] at h

/-- Witness for C5: the HTTP 401 scenario. -/
theorem c5_error_no_writes_witness :
    ∃ msg, (handleCopilotRequest (AuthResult.success "tok") (FetchOutcome.httpErr 401 none)
        "coder" (fun _ => false) (some ["ws"]) []).1
        = [Event.showError msg, Event.endStream]
      ∧ (handleCopilotRequest (AuthResult.success "tok") (FetchOutcome.httpErr 401 none)
        "coder" (fun _ => false) (some ["ws"]) []).2 = ([] : FS) :=
  c5_error_no_writes _ _ _ _ _ _ (Or.inr rfl)

/-- The C6 counterexample text: an unterminated FILE block followed by a
well-formed FILE block. -/
def c6Text : String :=
  "```js\n// FILE: a.txt\noops\n\n```js\n// FILE: b.txt\nhello\n```"

/-- Claim C6 counterexample: the unterminated first block is not skipped
-- its lazy body group captures up to the second block's OPENING fence,
consuming it -- so the well-formed second block yields no intent at all.
A malformed block can therefore affect the intents of other, well-formed
blocks, contrary to the claim. -/
theorem c6_counterexample :
    scanBlocks c6Text.data = [FileWriteIntent.mk "a.txt" "oops"]
    ∧ FileWriteIntent.mk "b.txt" "hello" ∉ scanBlocks c6Text.data := by
  decide

/-- Claim C6 (corrected): extraction is total -- it never fails, whatever
the text -- and a malformed region containing no backtick yields no
intents and leaves the intents extracted from the rest of the text
unchanged.  (An unterminated block that does carry a FILE marker can,
however, swallow the next block's opening fence, as the counterexample
shows.) -/
theorem c6_malformed_region_skipped (g t : List Char) (hg : ∀ ch ∈ g, ch ≠ bq) :
    scanBlocks (g ++ t) = scanBlocks t := by
  induction g with
  | nil => rfl
  | cons c cs ih =>
    rw [List.cons_append,
      scanBlocks_cons_none (matchBlockAt_head_ne (hg c (List.mem_cons_self c cs))),
      ih (fun ch hch => hg ch (List.mem_cons_of_mem c hch))]

/-- A well-formed block for the C6 witness. -/
def c6GoodBlock : String := "```\n// FILE: ok.txt\nbody\n```"

/-- Witness for C6: prose (no backticks) before a well-formed block does
not change what is extracted. -/
theorem c6_malformed_region_skipped_witness :
    scanBlocks (("Aqui vai um texto sem cercas de codigo. ").data ++ c6GoodBlock.data)
      = scanBlocks c6GoodBlock.data :=
  c6_malformed_region_skipped _ _ (by decide)

/-- The C7 counterexample text: the marker line is immediately followed by
the closing fence. -/
def c7Text : String := "```js\n// FILE: a.txt\n```"

/-- Claim C7 counterexample: when the FILE marker line is immediately
followed by the closing fence, the regex cannot match (the body group
requires a newline before the closing backticks), so NO intent is
produced -- not an intent with empty content as the claim states. -/
theorem c7_counterexample :
    scanBlocks c7Text.data = []
    ∧ scanBlocks c7Text.data ≠ [FileWriteIntent.mk "a.txt" ""] := by
  decide

/-- Claim C7 (corrected): a block whose marker line is followed by a blank
line before the closing fence yields an intent with empty content; a
marker line immediately followed by the closing fence yields no intent
(counterexample above). -/
theorem c7_blank_body_empty_content (p : String) (hp : goodPath p) :
    scanBlocks (mkFileBlock p "").data = [FileWriteIntent.mk p ""] := by
  obtain ⟨hdot, hpt⟩ := hp
  rw [data_mkFileBlock]
  have hnil : mkBlockList p.data ("" : String).data
      = mkBlockList p.data ("" : String).data ++ [] := by simp
  rw [hnil, scanBlocks_mkBlock p.data ("" : String).data []
    hdot (show hasFence ("" : String).data = false from rfl),
    mkIntent_eq_self hpt (show jsTrimList ("" : String).data = ("" : String).data from rfl)]
  rfl

/-- Witness for C7: the blank-body block for path a.txt. -/
theorem c7_blank_body_empty_content_witness :
    scanBlocks (mkFileBlock "a.txt" "").data = [FileWriteIntent.mk "a.txt" ""] :=
  c7_blank_body_empty_content "a.txt" (by decide)

/-- Claim C8 (confirmed): a response with two blocks for the same path
yields one intent per block, in document order, and applying them writes
sequentially, so the path finally reads as the second block's content
(last intent wins). -/
theorem c8_last_intent_wins (p c1 c2 : String) (root : List String) (fs : FS)
    (hp : goodPath p) (h1 : goodContent c1) (h2 : goodContent c2) :
    scanBlocks (mkFileBlock p c1 ++ mkFileBlock p c2).data
        = [FileWriteIntent.mk p c1, FileWriteIntent.mk p c2]
    ∧ fsRead (applyIntents (fun _ => false) root fs 0
          (scanBlocks (mkFileBlock p c1 ++ mkFileBlock p c2).data)).1
        (resolveSegs root p) = some c2 := by
  obtain ⟨hdot, hpt⟩ := hp
  obtain ⟨hf1, ht1⟩ := h1
  obtain ⟨hf2, ht2⟩ := h2
  have hscan : scanBlocks (mkFileBlock p c1 ++ mkFileBlock p c2).data
      = [FileWriteIntent.mk p c1, FileWriteIntent.mk p c2] := by
    rw [String.data_append, data_mkFileBlock, data_mkFileBlock,
      scanBlocks_mkBlock _ _ _ hdot hf1]
    have hnil : mkBlockList p.data c2.data = mkBlockList p.data c2.data ++ [] := by simp
    rw [hnil, scanBlocks_mkBlock _ _ _ hdot hf2,
      mkIntent_eq_self hpt ht1, mkIntent_eq_self hpt ht2]
    rfl
  refine ⟨hscan, ?_⟩
  rw [hscan]
  show fsRead ((resolveSegs root p, c2) :: (resolveSegs root p, c1) :: fs)
    (resolveSegs root p) = some c2
  unfold fsRead
  rw [List.find?_cons_of_pos _ (by rw [beq_self_eq_true])]
  rfl

/-- Witness for C8: two blocks for a.txt; the file reads as the second
block's content. -/
theorem c8_last_intent_wins_witness :
    scanBlocks (mkFileBlock "a.txt" "one" ++ mkFileBlock "a.txt" "two").data
        = [FileWriteIntent.mk "a.txt" "one", FileWriteIntent.mk "a.txt" "two"]
    ∧ fsRead (applyIntents (fun _ => false) ["ws"] [] 0
          (scanBlocks (mkFileBlock "a.txt" "one" ++ mkFileBlock "a.txt" "two").data)).1
        (resolveSegs ["ws"] "a.txt") = some "two" :=
  c8_last_intent_wins "a.txt" "one" "two" ["ws"] [] (by decide) (by decide) (by decide)

/-- Claim C9 (confirmed): whatever subset of write attempts fails, the
loop still attempts every intent -- one outcome per intent, in order, each
outcome's success depending only on its own attempt -- and the success
counter (the aggregate filesWritten the notice reports) equals the number
of succeeded outcomes.  The batch is not atomic: failures leave the other
writes in place. -/
theorem c9_partial_failure_independent (intents : List FileWriteIntent) (wenv : Nat → Bool)
    (root : List String) (fs : FS) (k : Nat) :
    (applyIntents wenv root fs k intents).2.2
        = (List.enumFrom k intents).map
            (fun pr => FileWriteOutcome.mk pr.2.relativePath (!wenv pr.1))
    ∧ (applyIntents wenv root fs k intents).2.2.length = intents.length
    ∧ (applyIntents wenv root fs k intents).2.1
        = ((applyIntents wenv root fs k intents).2.2.filter (fun o => o.ok)).length := by
  induction intents generalizing fs k with
  | nil => exact ⟨rfl, rfl, rfl⟩
  | cons i rest ih =>
    by_cases hw : wenv k
    · obtain ⟨e1, e2, e3⟩ := ih fs (k + 1)
      unfold applyIntents
      rw [if_pos hw]
      refine ⟨?_, ?_, ?_⟩
      · rw [List.enumFrom_cons, List.map_cons, hw, e1]
        rfl
      · simp only [List.length_cons, e2]
      · rw [e3, List.filter_cons]
        simp only [Bool.false_eq_true, if_neg]
        rfl
    · rw [Bool.not_eq_true] at hw
      obtain ⟨e1, e2, e3⟩ :=
        ih (fsWrite fs (resolveSegs root i.relativePath) i.content) (k + 1)
      unfold applyIntents
      rw [if_neg (by rw [hw]; exact Bool.false_ne_true)]
      refine ⟨?_, ?_, ?_⟩
      · rw [List.enumFrom_cons, List.map_cons, hw, e1]
        rfl
      · simp only [List.length_cons, e2]
      · rw [e3, List.filter_cons]
        simp only [if_pos]
        rfl

/-- Claim C10 (confirmed): a successful response whose value field is
missing or empty forwards the fixed placeholder text to the webview, and
for the coder persona the materialization pass runs over that placeholder
text -- which contains no FILE block, so no intent is extracted and the
filesystem is unchanged. -/
theorem c10_placeholder_forwarded (v : Option String) (tok : String) (wenv : Nat → Bool)
    (r : List String) (fs : FS) (hv : v = none ∨ v = some "") :
    handleCopilotRequest (AuthResult.success tok) (FetchOutcome.httpOk v) "coder" wenv
        (some r) fs
      = ([Event.streamResponse placeholderText, Event.endStream],
         (applyIntents wenv r fs 0 (scanBlocks placeholderText.data)).1)
    ∧ scanBlocks placeholderText.data = [] := by
  have hscan : scanBlocks placeholderText.data = [] := by decide
  refine ⟨?_, hscan⟩
  have hbody : handleCopilotRequest.handleOkBody placeholderText "coder" wenv (some r) fs
      = ([Event.streamResponse placeholderText, Event.endStream],
         (applyIntents wenv r fs 0 (scanBlocks placeholderText.data)).1) := by
    unfold handleCopilotRequest.handleOkBody
    rw [if_pos rfl]
    rw [hscan]
    rfl
  rcases hv with rfl | rfl
  · exact hbody
  · show (if ("" : String) = "" then
        handleCopilotRequest.handleOkBody placeholderText "coder" wenv (some r) fs
      else handleCopilotRequest.handleOkBody "" "coder" wenv (some r) fs) = _
    rw [if_pos rfl]
    exact hbody

/-- Witness for C10: the missing-value case with a concrete root. -/
theorem c10_placeholder_forwarded_witness :
    handleCopilotRequest (AuthResult.success "tok") (FetchOutcome.httpOk none) "coder"
        (fun _ => false) (some ["ws"]) []
      = ([Event.streamResponse placeholderText, Event.endStream],
         (applyIntents (fun _ => false) ["ws"] [] 0 (scanBlocks placeholderText.data)).1)
    ∧ scanBlocks placeholderText.data = [] :=
  c10_placeholder_forwarded none "tok" (fun _ => false) ["ws"] [] (Or.inl rfl)

end M365Agent
